import Mathlib

/-!
Verification of the BERT pretraining sample builder
(`libai/data/bert_dataset.py`) against its natural-language specification.

The Python module is shallowly embedded below: pure helpers become Lean
functions on `List ℤ` (token ids are Python ints), the per-sample numpy
RNG is abstracted as a record of draw oracles (a permutation for
`np_rng.shuffle`, a bounded choice for `np_rng.choice`, and boolean
streams for the `np_rng.random() < c` comparisons), and fallible code
(Python `assert`, `NameError`, `AttributeError`, `IndexError`) returns
`Except Err`.
-/

set_option linter.unusedVariables false

/-- Python exceptions that the embedded code can raise.  `nameError v`
models `NameError`/`UnboundLocalError` for the identifier `v`;
`attributeError a` models `AttributeError` on attribute `a`. -/
inductive Err where
  | assertionError : Err
  | nameError : String → Err
  | attributeError : String → Err
  | indexError : Err
deriving DecidableEq, Repr

/-- Configuration and collaborator state held on the `BertDataset` object:
special token ids, the id→surface-piece vocabulary lookup
(`vocab_id_to_token_dict`), and the masking/padding parameters.
`mask_lm_prob` is modelled as a rational. -/
structure BertConfig where
  cls_id : ℤ
  sep_id : ℤ
  mask_id : ℤ
  pad_id : ℤ
  vocab_id_to_token_dict : ℤ → List Char
  max_seq_length : ℕ
  mask_lm_prob : ℚ
  max_preds_per_seq : ℕ
  binary_head : Bool

/-- `is_start_piece(piece)`: a word piece starts a word iff it does not
carry the `##` continuation marker (`not piece.startswith('##')`,
surface pieces modelled as character lists). -/
def is_start_piece (piece : List Char) : Bool :=
  !(List.isPrefixOf ['#', '#'] piece)

/-- Python's `round` of the rational `a / b` (with `b > 0`): round half
to even (banker's rounding). -/
def pyRound (a b : ℤ) : ℤ :=
  let f := a.fdiv b
  let rem := a - f * b
  if 2 * rem < b then f
  else if b < 2 * rem then f + 1
  else if f % 2 = 0 then f else f + 1

/-- `num_to_predict = min(self.max_preds_per_seq, max(1, int(round(len(tokens) * self.mask_lm_prob))))`
(line 221 of `bert_dataset.py`); `len(tokens) * mask_lm_prob` is the
rational with numerator `len(tokens) * mask_lm_prob.num` and denominator
`mask_lm_prob.den`. -/
def numToPredict (cfg : BertConfig) (numTokens : ℕ) : ℕ :=
  min cfg.max_preds_per_seq
    (max 1 (pyRound ((numTokens : ℤ) * cfg.mask_lm_prob.num)
      (cfg.mask_lm_prob.den : ℤ)).toNat)

/-- `truncate_seq_pair` (lines 148–167).  When the pair is already within
budget the loop breaks immediately and both segments are returned
unchanged.  When any trimming is needed the loop body reaches
`rng.random()` — but the function's parameter is named `np_rng` and no
`rng` is in scope, so Python raises `NameError: name 'rng' is not
defined` on the first removal. -/
def truncate_seq_pair (tokens_a tokens_b : List ℤ) (max_num_tokens : ℕ) :
    Except Err (List ℤ × List ℤ) :=
  if tokens_a.length + tokens_b.length ≤ max_num_tokens then
    .ok (tokens_a, tokens_b)
  else
    .error (.nameError "rng")

/-- `create_random_sentence_pair` (lines 122–146).  `aEndDraw` is the
`np_rng.randint(1, num_sentences)` draw and `swapLt` the outcome of
`np_rng.random() < 0.5`.  After the assertion, the function computes
`tokens_a`, `tokens_b` and `is_next_random`, but its `return` statement
(line 146) names `is_random_next`, an identifier never assigned, so every
call that reaches the return raises `NameError`. -/
def create_random_sentence_pair (aEndDraw : ℕ) (swapLt : Bool)
    (sample : List (List ℤ)) : Except Err (List ℤ × List ℤ × Bool) :=
  if sample.length ≤ 1 then
    .error .assertionError
  else
    let a_end := if 3 ≤ sample.length then aEndDraw else 1
    let tokens_a := ((sample.take a_end).flatten : List ℤ)
    let tokens_b := ((sample.drop a_end).flatten : List ℤ)
    let is_next_random := swapLt
    -- line 146: `return tokens_a, tokens_b, is_random_next`
    .error (.nameError "is_random_next")

/-- `create_tokens_and_token_types` (lines 169–173):
`[CLS] + A + [SEP] + B + [SEP]` with token types `0` through the first
`[SEP]` and `1` afterwards. -/
def create_tokens_and_token_types (cfg : BertConfig) (tokens_a tokens_b : List ℤ) :
    List ℤ × List ℤ :=
  ([cfg.cls_id] ++ tokens_a ++ [cfg.sep_id] ++ tokens_b ++ [cfg.sep_id],
   List.replicate (tokens_a.length + 2) (0 : ℤ) ++
     List.replicate (tokens_b.length + 1) (1 : ℤ))

/-- The `for idx, label in zip(masked_positions, masked_labels)` loop of
`pad_and_convert_to_numpy` (lines 316–319): assert `idx < num_tokens`,
then set `labels[idx] = label` and `loss_mask[idx] = 1`. -/
def fillLabels (num_tokens : ℕ) :
    List (ℕ × ℤ) → List ℤ → List ℤ → Except Err (List ℤ × List ℤ)
  | [], labels, loss_mask => .ok (labels, loss_mask)
  | (idx, label) :: rest, labels, loss_mask =>
    if idx < num_tokens then
      fillLabels num_tokens rest (labels.set idx label) (loss_mask.set idx 1)
    else
      .error .assertionError

/-- `pad_and_convert_to_numpy` (lines 295–323): check the padding and
length preconditions, pad tokens and token types with `pad_id`, build the
`padding_mask`, and scatter the masked labels into `labels` (initialised
to `-1`) and `loss_mask` (initialised to `0`). -/
def pad_and_convert_to_numpy (cfg : BertConfig) (tokens token_types : List ℤ)
    (masked_positions : List ℕ) (masked_labels : List ℤ) :
    Except Err (List ℤ × List ℤ × List ℤ × List ℤ × List ℤ) :=
  let num_tokens := tokens.length
  if h1 : cfg.max_seq_length < num_tokens then .error .assertionError
  else if h2 : token_types.length ≠ num_tokens then .error .assertionError
  else if h3 : masked_positions.length ≠ masked_labels.length then .error .assertionError
  else
    let num_pad := cfg.max_seq_length - num_tokens
    let filler := List.replicate num_pad cfg.pad_id
    let tokens_np := tokens ++ filler
    let token_types_np := token_types ++ filler
    let padding_mask_np :=
      List.replicate num_tokens (1 : ℤ) ++ List.replicate num_pad (0 : ℤ)
    match fillLabels num_tokens (masked_positions.zip masked_labels)
        (List.replicate cfg.max_seq_length (-1 : ℤ))
        (List.replicate cfg.max_seq_length (0 : ℤ)) with
    | .error e => .error e
    | .ok (labels_np, loss_mask_np) =>
      .ok (tokens_np, token_types_np, labels_np, padding_mask_np, loss_mask_np)

/-- One candidate whole-word group: the flat token positions of the
pieces of one word (`cand_indexes` entries). -/
abbrev CandGroup := List ℕ

/-- One entry of `ngram_indexes`: for a fixed start group `idx`, the list
over `n = 1..max_ngrams` of the group slices `cand_indexes[idx:idx+n]`. -/
abbrev NgramEntry := List (List CandGroup)

/-- Abstraction of the per-sample `np.random.RandomState`.  `shuffle` is
the permutation `np_rng.shuffle` applies to `ngram_indexes`; `chooseN c k`
is the `np_rng.choice` draw of an n-gram length from `ngrams[:k]` at draw
counter `c` (numpy always returns an element of the population, hence the
bounds); `maskBranch c` is the outcome of `np_rng.random() < 0.8` and
`keepBranch c` of the nested `np_rng.random() < 0.5`. -/
structure Rng where
  shuffle : List NgramEntry → List NgramEntry
  shuffle_perm : ∀ l, List.Perm (shuffle l) l
  chooseN : ℕ → ℕ → ℕ
  chooseN_pos : ∀ c k, 1 ≤ chooseN c k
  chooseN_le : ∀ c k, 1 ≤ k → chooseN c k ≤ k
  maskBranch : ℕ → Bool
  keepBranch : ℕ → Bool

/-- The `for (i, token) in enumerate(tokens)` loop building
`cand_indexes` (lines 204–217), written with the groups accumulated in
reverse.  `i` is the position of the head of `ts` in the original token
list.  `cls`/`sep` tokens are skipped; in whole-word mode a continuation
piece (one whose surface form fails `is_start_piece`) is appended to the
previous group when one exists. -/
def candLoop (cfg : BertConfig) (dwwm : Bool) :
    ℕ → List ℤ → List CandGroup → List CandGroup
  | _, [], racc => racc.reverse
  | i, t :: ts, racc =>
    if t = cfg.cls_id ∨ t = cfg.sep_id then
      candLoop cfg dwwm (i + 1) ts racc
    else
      match racc with
      | g :: rest =>
        if dwwm && !(is_start_piece (cfg.vocab_id_to_token_dict t)) then
          candLoop cfg dwwm (i + 1) ts ((g ++ [i]) :: rest)
        else
          candLoop cfg dwwm (i + 1) ts ([i] :: g :: rest)
      | [] => candLoop cfg dwwm (i + 1) ts [[i]]

/-- `cand_indexes` for a token list. -/
def buildCandIndexes (cfg : BertConfig) (dwwm : Bool) (tokens : List ℤ) :
    List CandGroup :=
  candLoop cfg dwwm 0 tokens []

/-- `ngram_indexes` (lines 231–236): for every start index `idx` into
`cand_indexes`, the Python slices `cand_indexes[idx:idx+n]` for
`n = 1..max_ngrams`. -/
def buildNgramIndexes (cand : List CandGroup) (maxNgrams : ℕ) :
    List NgramEntry :=
  (List.range cand.length).map
    (fun idx => (List.range maxNgrams).map
      (fun k => (cand.drop idx).take (k + 1)))

/-- `mask_token` (lines 175–191) at draw counter `ctr`: record the
original id as label, then with probability 0.8 write `mask_id`; else
with probability 0.5 rewrite the original id; else the code evaluates
`np.rng.randint(...)` — but the numpy module has no attribute `rng`
(the parameter is `np_rng`), so Python raises `AttributeError`. -/
def mask_token (cfg : BertConfig) (rng : Rng) (ctr idx : ℕ) (tokens : List ℤ) :
    Except Err (List ℤ × ℤ × ℕ) :=
  if idx < tokens.length then
    let label := tokens.getD idx 0
    if rng.maskBranch ctr then
      .ok (tokens.set idx cfg.mask_id, label, ctr + 1)
    else if rng.keepBranch (ctr + 1) then
      .ok (tokens.set idx label, label, ctr + 2)
    else
      .error (.attributeError "rng")
  else
    .error .indexError

/-- State of the masking loop: committed `masked_lms` (position, original
label), the `covered_indexes` set (modelled as a duplicate-free-by-use
list with `List.insert`), the mutably updated `output_tokens`, and the
RNG draw counter. -/
structure MlmState where
  masked : List (ℕ × ℤ)
  covered : List ℕ
  output : List ℤ
  ctr : ℕ

/-- The `for index in index_set` commit loop (lines 283–286): add the
position to `covered_indexes`, mask the token, append the
`MaskedLmInstance`. -/
def commitSpan (cfg : BertConfig) (rng : Rng) :
    List ℕ → MlmState → Except Err MlmState
  | [], st => .ok st
  | idx :: rest, st =>
    match mask_token cfg rng st.ctr idx st.output with
    | .error e => .error e
    | .ok (out, label, ctr) =>
      commitSpan cfg rng rest
        { masked := st.masked ++ [(idx, label)],
          covered := st.covered.insert idx,
          output := out,
          ctr := ctr }

/-- The `while len(masked_lms) + len(index_set) > num_to_predict` retry
loop (lines 267–271): keep replacing the span with the flat positions of
the next-shorter n-gram until the span fits the budget or `n` hits 0. -/
def retryLoop (entry : NgramEntry) (maskedLen nPred : ℕ) :
    ℕ → List ℕ → List ℕ
  | 0, index_set => index_set
  | n + 1, index_set =>
    if maskedLen + index_set.length ≤ nPred then index_set
    else retryLoop entry maskedLen nPred n ((entry.getD n []).flatten)

/-- The body of the main candidate loop (lines 242–286) for one shuffled
`cand_index_set`.  The `break` once `num_to_predict` positions are
committed is modelled by leaving the state unchanged (no further state
change nor RNG draw can occur after the break).  The loop at lines
248–251 tests `index in covered_indexes` and `continue`s the innermost
`for` with no effect on any state, so it is a no-op and is not modelled.
The effective overlap check is the `is_any_index_covered` scan at lines
276–282. -/
def mlmStep (cfg : BertConfig) (rng : Rng) (nPred : ℕ) (st : MlmState)
    (entry : NgramEntry) : Except Err MlmState :=
  if nPred ≤ st.masked.length then .ok st
  else if entry.isEmpty then .ok st
  else
    let n := rng.chooseN st.ctr entry.length
    let index_set0 := ((entry.getD (n - 1) []).flatten : List ℕ)
    let index_set := retryLoop entry st.masked.length nPred (n - 1) index_set0
    let st1 : MlmState := { st with ctr := st.ctr + 1 }
    if nPred < st.masked.length + index_set.length then .ok st1
    else if index_set.any (fun i => st.covered.contains i) then .ok st1
    else commitSpan cfg rng index_set st1

/-- The main candidate loop over the shuffled `ngram_indexes`. -/
def mlmLoop (cfg : BertConfig) (rng : Rng) (nPred : ℕ) :
    List NgramEntry → MlmState → Except Err MlmState
  | [], st => .ok st
  | e :: es, st =>
    match mlmStep cfg rng nPred st e with
    | .error err => .error err
    | .ok st' => mlmLoop cfg rng nPred es st'

/-- Stable insertion into a list sorted ascending by position, used to
model `sorted(masked_lms, key=lambda x: x.index)`. -/
def insertLm (x : ℕ × ℤ) : List (ℕ × ℤ) → List (ℕ × ℤ)
  | [] => [x]
  | y :: ys => if x.1 < y.1 then x :: y :: ys else y :: insertLm x ys

/-- `sorted(masked_lms, key=lambda x: x.index)` (line 288). -/
def sortLms (l : List (ℕ × ℤ)) : List (ℕ × ℤ) :=
  l.foldr insertLm []

/-- `create_masked_lm_predictions` (lines 193–293).  When
`mask_lm_prob == 0` the early `return` (line 202) reads `output_tokens`,
which is only assigned later at line 219, so Python raises
`UnboundLocalError` (a `NameError`).  Otherwise: build the whole-word
candidate groups, the per-start n-gram slices, shuffle them, run the
budgeted/overlap-checked commit loop, and return the modified tokens with
the committed (position, original-label) pairs sorted by position.
`np_rng.choice`'s length distribution (`pvals`, `favor_longer_ngram`,
`geometric_dist`) is abstracted into `rng.chooseN`, which ranges over the
same support `1..max_ngrams`. -/
def create_masked_lm_predictions (cfg : BertConfig) (rng : Rng)
    (tokens : List ℤ) (max_ngrams : ℕ) (do_whole_word_mask : Bool) :
    Except Err (List ℤ × List ℕ × List ℤ) :=
  if cfg.mask_lm_prob = 0 then
    .error (.nameError "output_tokens")
  else
    let cand_indexes := buildCandIndexes cfg do_whole_word_mask tokens
    let output_tokens := tokens
    let num_to_predict := numToPredict cfg tokens.length
    let ngram_indexes := buildNgramIndexes cand_indexes max_ngrams
    let shuffled := rng.shuffle ngram_indexes
    match mlmLoop cfg rng num_to_predict shuffled
        ⟨[], [], output_tokens, 0⟩ with
    | .error e => .error e
    | .ok st =>
      let lms := sortLms st.masked
      .ok (st.output, lms.map Prod.fst, lms.map Prod.snd)

/-- The shape of the `train_sample` dict literal at lines 111–119 (its
seven keys, including the `truncated` entry the literal attempts to
fill). -/
structure TrainingSample where
  text : List ℤ
  types : List ℤ
  labels : List ℤ
  is_random : ℕ
  loss_mask : List ℤ
  padding_mask : List ℤ
  truncated : ℕ

/-- `create_training_sample` (lines 85–120): the two assertions, the
segment split (SOP pair in binary-head mode, plain concatenation
otherwise), truncation, assembly, masking, serialization, and finally the
`train_sample` dict literal — whose `'truncated'` value names the
identifier `truncated`, never assigned in this function (and the literal
is followed by a stray `}` at line 119, a `SyntaxError` in the actual
file), so no record is ever returned. -/
def create_training_sample (cfg : BertConfig) (rng : Rng) (aEndDraw : ℕ)
    (swapLt : Bool) (sample : List (List ℤ)) (target_seq_length : ℕ) :
    Except Err TrainingSample :=
  if cfg.binary_head = true ∧ sample.length ≤ 1 then
    .error .assertionError
  else if cfg.max_seq_length < target_seq_length then
    .error .assertionError
  else
    match (if cfg.binary_head then
             create_random_sentence_pair aEndDraw swapLt sample
           else
             .ok (sample.flatten, ([] : List ℤ), false)) with
    | .error e => .error e
    | .ok (tokens_a, tokens_b, is_next_random) =>
      let max_num_tokens := target_seq_length
      match truncate_seq_pair tokens_a tokens_b max_num_tokens with
      | .error e => .error e
      | .ok (ta, tb) =>
        let (tokens, token_types) := create_tokens_and_token_types cfg ta tb
        match create_masked_lm_predictions cfg rng tokens 3 true with
        | .error e => .error e
        | .ok (out_tokens, masked_positions, masked_labels) =>
          match pad_and_convert_to_numpy cfg out_tokens token_types
              masked_positions masked_labels with
          | .error e => .error e
          | .ok _ => .error (.nameError "truncated")

/-- Rational 1/2 by explicit constructor (kernel-reducible). -/
def halfQ : ℚ := { num := 1, den := 2, den_nz := by decide, reduced := by decide }

/-- Concrete configuration used for evaluation witnesses:
`cls=1, sep=2, mask=3, pad=0`; id `11` is the continuation piece `##x`,
every other id a fresh word; `mask_lm_prob = 1/2`. -/
def cfgW : BertConfig where
  cls_id := 1
  sep_id := 2
  mask_id := 3
  pad_id := 0
  vocab_id_to_token_dict := fun t => if t = 11 then ['#', '#', 'x'] else ['y']
  max_seq_length := 8
  mask_lm_prob := halfQ
  max_preds_per_seq := 20
  binary_head := true

/-- `cfgW` with the binary (SOP) head disabled. -/
def cfgW_nb : BertConfig := { cfgW with binary_head := false }

/-- `cfgW` with `mask_lm_prob = 0`. -/
def cfgW_zero : BertConfig := { cfgW with mask_lm_prob := 0 }

/-- A concrete RNG state: identity shuffle, always choose 1-grams, always
take the 80% mask branch. -/
def rngW : Rng where
  shuffle := fun l => l
  shuffle_perm := fun l => List.Perm.refl l
  chooseN := fun _ _ => 1
  chooseN_pos := fun _ _ => le_refl 1
  chooseN_le := fun _ _ h => h
  maskBranch := fun _ => true
  keepBranch := fun _ => true

/-! ### Sorting facts -/

lemma insertLm_perm (x : ℕ × ℤ) (l : List (ℕ × ℤ)) :
    List.Perm (insertLm x l) (x :: l) := by
  induction l with
  | nil => simp [insertLm]
  | cons y ys ih =>
    simp only [insertLm]
    split
    · exact List.Perm.refl _
    · exact (List.Perm.cons y ih).trans (List.Perm.swap x y ys)

lemma sortLms_perm (l : List (ℕ × ℤ)) : List.Perm (sortLms l) l := by
  induction l with
  | nil => simp [sortLms]
  | cons x xs ih =>
    simpa [sortLms] using (insertLm_perm x (sortLms xs)).trans (List.Perm.cons x ih)

/-! ### Serializer facts (`pad_and_convert_to_numpy`) -/

lemma fillLabels_spec (nt L : ℕ) (hntL : nt ≤ L) :
    ∀ (pairs : List (ℕ × ℤ)) (labels loss_mask labels' loss_mask' : List ℤ),
    labels.length = L → loss_mask.length = L →
    (∀ i < L, loss_mask.getD i 0 = 1 ↔ labels.getD i 0 ≠ -1) →
    (∀ pr ∈ pairs, 0 ≤ pr.2) →
    fillLabels nt pairs labels loss_mask = .ok (labels', loss_mask') →
    labels'.length = L ∧ loss_mask'.length = L ∧
      (∀ i < L, loss_mask'.getD i 0 = 1 ↔ labels'.getD i 0 ≠ -1) := by
  intro pairs
  induction pairs with
  | nil =>
    intro labels loss_mask labels' loss_mask' hl hm hiff _ hok
    simp only [fillLabels] at hok
    rcases hok with ⟨rfl, rfl⟩
    exact ⟨hl, hm, hiff⟩
  | cons pr rest ih =>
    intro labels loss_mask labels' loss_mask' hl hm hiff hpos hok
    obtain ⟨idx, label⟩ := pr
    simp only [fillLabels] at hok
    split at hok
    case isFalse => exact absurd hok (by simp)
    case isTrue hidxnt =>
    have hidx : idx < L := lt_of_lt_of_le hidxnt hntL
    refine ih (labels.set idx label) (loss_mask.set idx 1) labels' loss_mask'
      (by simpa using hl) (by simpa using hm) ?_
      (fun pr h => hpos pr (List.mem_cons_of_mem _ h)) hok
    intro i hi
    by_cases hij : idx = i
    · subst hij
      have h1 : (loss_mask.set idx 1).getD idx 0 = 1 := by
        simp [List.getD_eq_getElem?_getD, List.getElem?_set_self', hm ▸ hidx]
      have h2 : (labels.set idx label).getD idx 0 = label := by
        simp [List.getD_eq_getElem?_getD, List.getElem?_set_self', hl ▸ hidx]
      rw [h1, h2]
      have : (0 : ℤ) ≤ label := hpos (idx, label) (List.mem_cons_self _ _)
      constructor
      · intro _ hc
        omega
      · intro _
        rfl
    · have h1 : (loss_mask.set idx 1).getD i 0 = loss_mask.getD i 0 := by
        simp [List.getD_eq_getElem?_getD, List.getElem?_set_ne hij]
      have h2 : (labels.set idx label).getD i 0 = labels.getD i 0 := by
        simp [List.getD_eq_getElem?_getD, List.getElem?_set_ne hij]
      rw [h1, h2]
      exact hiff i hi

/-- **C1.** For every sample successfully serialized, the five output
arrays `tokens`, `token_types`, `labels`, `padding_mask`, `loss_mask`
all have length exactly `max_seq_length`; `padding_mask` is `1` on the
contiguous real-token prefix and `0` on the pad suffix; and for every
index `i`, `loss_mask[i] == 1` iff `labels[i] != -1`, assuming all input
token ids (hence all masked labels) are non-negative. -/
theorem pad_and_convert_to_numpy_spec (cfg : BertConfig)
    (tokens token_types : List ℤ) (masked_positions : List ℕ)
    (masked_labels : List ℤ) (hlab : ∀ lb ∈ masked_labels, (0 : ℤ) ≤ lb)
    (t tt lb pm lm : List ℤ)
    (hok : pad_and_convert_to_numpy cfg tokens token_types masked_positions
      masked_labels = .ok (t, tt, lb, pm, lm)) :
    t.length = cfg.max_seq_length ∧ tt.length = cfg.max_seq_length ∧
    lb.length = cfg.max_seq_length ∧ pm.length = cfg.max_seq_length ∧
    lm.length = cfg.max_seq_length ∧
    (∀ i < cfg.max_seq_length,
      pm.getD i 0 = if i < tokens.length then 1 else 0) ∧
    (∀ i < cfg.max_seq_length, (lm.getD i 0 = 1 ↔ lb.getD i 0 ≠ -1)) := by
  simp only [pad_and_convert_to_numpy] at hok
  split at hok
  case isTrue => exact absurd hok (by simp)
  case isFalse hnt =>
  split at hok
  case isTrue => exact absurd hok (by simp)
  case isFalse htt =>
  split at hok
  case isTrue => exact absurd hok (by simp)
  case isFalse hlen =>
  split at hok
  case h_1 e heq => exact absurd hok (by simp)
  case h_2 labels_np loss_mask_np heq =>
  simp only [Except.ok.injEq, Prod.mk.injEq] at hok
  obtain ⟨rfl, rfl, rfl, rfl, rfl⟩ := hok
  have hntle : tokens.length ≤ cfg.max_seq_length := le_of_not_lt hnt
  have httlen : token_types.length = tokens.length := not_ne_iff.mp htt
  have hzip : ∀ pr ∈ masked_positions.zip masked_labels, (0 : ℤ) ≤ pr.2 := by
    intro pr hpr
    exact hlab pr.2 (List.of_mem_zip hpr).2
  have hfill := fillLabels_spec tokens.length cfg.max_seq_length hntle
    (masked_positions.zip masked_labels)
    (List.replicate cfg.max_seq_length (-1 : ℤ))
    (List.replicate cfg.max_seq_length (0 : ℤ))
    labels_np loss_mask_np (by simp) (by simp)
    (by
      intro i hi
      simp [List.getD_eq_getElem?_getD, List.getElem?_replicate, hi])
    hzip heq
  refine ⟨by simp; omega, by simp [httlen]; omega, hfill.1, by simp; omega,
    hfill.2.1, ?_, hfill.2.2⟩
  intro i hi
  by_cases hreal : i < tokens.length
  · rw [if_pos hreal]
    rw [List.getD_eq_getElem?_getD,
      List.getElem?_append_left (by simpa using hreal)]
    simp [List.getElem?_replicate, hreal]
  · rw [if_neg hreal]
    rw [List.getD_eq_getElem?_getD,
      List.getElem?_append_right (by simpa using le_of_not_lt hreal)]
    have : i - tokens.length < cfg.max_seq_length - tokens.length := by omega
    simp [List.getElem?_replicate, this]

/-- Witness for `pad_and_convert_to_numpy_spec` at a concrete input. -/
theorem pad_and_convert_to_numpy_spec_witness :
    ((∀ lb ∈ ([6] : List ℤ), (0 : ℤ) ≤ lb) ∧
      pad_and_convert_to_numpy cfgW [5, 6] [0, 0] [1] [6] =
        .ok ([5, 6, 0, 0, 0, 0, 0, 0], [0, 0, 0, 0, 0, 0, 0, 0],
          [-1, 6, -1, -1, -1, -1, -1, -1], [1, 1, 0, 0, 0, 0, 0, 0],
          [0, 1, 0, 0, 0, 0, 0, 0])) ∧
    (([5, 6, 0, 0, 0, 0, 0, 0] : List ℤ).length = cfgW.max_seq_length ∧
      ([0, 0, 0, 0, 0, 0, 0, 0] : List ℤ).length = cfgW.max_seq_length ∧
      ([-1, 6, -1, -1, -1, -1, -1, -1] : List ℤ).length = cfgW.max_seq_length ∧
      ([1, 1, 0, 0, 0, 0, 0, 0] : List ℤ).length = cfgW.max_seq_length ∧
      ([0, 1, 0, 0, 0, 0, 0, 0] : List ℤ).length = cfgW.max_seq_length ∧
      (∀ i < cfgW.max_seq_length,
        ([1, 1, 0, 0, 0, 0, 0, 0] : List ℤ).getD i 0 =
          if i < ([5, 6] : List ℤ).length then 1 else 0) ∧
      (∀ i < cfgW.max_seq_length,
        (([0, 1, 0, 0, 0, 0, 0, 0] : List ℤ).getD i 0 = 1 ↔
          ([-1, 6, -1, -1, -1, -1, -1, -1] : List ℤ).getD i 0 ≠ -1))) :=
  ⟨⟨by decide, by rfl⟩,
    pad_and_convert_to_numpy_spec cfgW [5, 6] [0, 0] [1] [6] (by decide)
      _ _ _ _ _ (by rfl)⟩

/-! ### Candidate-group facts (`cand_indexes`) -/

lemma candLoop_spec (cfg : BertConfig) (dwwm : Bool) :
    ∀ (ts : List ℤ) (i : ℕ) (racc : List CandGroup),
    racc.flatten.Nodup → (∀ p ∈ racc.flatten, p < i) →
    (candLoop cfg dwwm i ts racc).flatten.Nodup ∧
    (∀ p ∈ (candLoop cfg dwwm i ts racc).flatten,
      p ∈ racc.flatten ∨
        (i ≤ p ∧ p - i < ts.length ∧
          ts.getD (p - i) 0 ≠ cfg.cls_id ∧ ts.getD (p - i) 0 ≠ cfg.sep_id)) := by
  intro ts
  induction ts with
  | nil =>
    intro i racc hnd hlt
    have hperm : List.Perm (racc.reverse.flatten) racc.flatten :=
      (List.reverse_perm racc).flatten
    constructor
    · simpa only [candLoop] using hperm.nodup_iff.mpr hnd
    · intro p hp
      simp only [candLoop] at hp
      exact Or.inl (hperm.mem_iff.mp hp)
  | cons t ts ih =>
    intro i racc hnd hlt
    simp only [candLoop]
    split
    case isTrue hsp =>
      obtain ⟨nd', hmem'⟩ := ih (i + 1) racc hnd (fun p hp => Nat.lt_succ_of_lt (hlt p hp))
      refine ⟨nd', fun p hp => ?_⟩
      rcases hmem' p hp with h | ⟨h1, h2, h3, h4⟩
      · exact Or.inl h
      · refine Or.inr ⟨by omega, by simp; omega, ?_, ?_⟩
        · have heq : p - i = (p - (i + 1)) + 1 := by omega
          rw [heq, List.getD_cons_succ]
          exact h3
        · have heq : p - i = (p - (i + 1)) + 1 := by omega
          rw [heq, List.getD_cons_succ]
          exact h4
    case isFalse hsp =>
      push_neg at hsp
      have step : ∀ racc' : List CandGroup,
          List.Perm racc'.flatten (i :: racc.flatten) →
          (candLoop cfg dwwm (i + 1) ts racc').flatten.Nodup ∧
          (∀ p ∈ (candLoop cfg dwwm (i + 1) ts racc').flatten,
            p ∈ racc.flatten ∨
              (i ≤ p ∧ p - i < (t :: ts).length ∧
                (t :: ts).getD (p - i) 0 ≠ cfg.cls_id ∧
                (t :: ts).getD (p - i) 0 ≠ cfg.sep_id)) := by
        intro racc' hperm
        have hnd' : racc'.flatten.Nodup := by
          refine hperm.nodup_iff.mpr ?_
          exact List.nodup_cons.mpr ⟨fun hmem => absurd (hlt i hmem) (lt_irrefl i), hnd⟩
        have hlt' : ∀ p ∈ racc'.flatten, p < i + 1 := by
          intro p hp
          rcases List.mem_cons.mp (hperm.mem_iff.mp hp) with heq | h
          · omega
          · exact Nat.lt_succ_of_lt (hlt p h)
        obtain ⟨nd'', hmem''⟩ := ih (i + 1) racc' hnd' hlt'
        refine ⟨nd'', fun p hp => ?_⟩
        rcases hmem'' p hp with h | ⟨h1, h2, h3, h4⟩
        · rcases List.mem_cons.mp (hperm.mem_iff.mp h) with heq | hmem
          · subst heq
            exact Or.inr ⟨le_refl _, by simp, by simpa using hsp.1, by simpa using hsp.2⟩
          · exact Or.inl hmem
        · refine Or.inr ⟨by omega, by simp; omega, ?_, ?_⟩
          · have heq : p - i = (p - (i + 1)) + 1 := by omega
            rw [heq, List.getD_cons_succ]
            exact h3
          · have heq : p - i = (p - (i + 1)) + 1 := by omega
            rw [heq, List.getD_cons_succ]
            exact h4
      split
      next g rest =>
        split
        next =>
          refine step ((g ++ [i]) :: rest) ?_
          have h1 : ((g ++ [i]) :: rest).flatten = g ++ i :: rest.flatten := by
            simp [List.flatten_cons, List.append_assoc]
          rw [h1]
          simp
        next =>
          exact step ([i] :: g :: rest) (by simp)
      next =>
        exact step [[i]] (by simp)

lemma buildCandIndexes_nodup (cfg : BertConfig) (dwwm : Bool) (tokens : List ℤ) :
    (buildCandIndexes cfg dwwm tokens).flatten.Nodup :=
  (candLoop_spec cfg dwwm tokens 0 [] (by simp) (by simp)).1

lemma buildCandIndexes_mem (cfg : BertConfig) (dwwm : Bool) (tokens : List ℤ) :
    ∀ p ∈ (buildCandIndexes cfg dwwm tokens).flatten,
      p < tokens.length ∧ tokens.getD p 0 ≠ cfg.cls_id ∧
        tokens.getD p 0 ≠ cfg.sep_id := by
  intro p hp
  rcases (candLoop_spec cfg dwwm tokens 0 [] (by simp) (by simp)).2 p hp with
    h | ⟨_, h2, h3, h4⟩
  · simp at h
  · rw [Nat.sub_zero] at h2 h3 h4
    exact ⟨h2, h3, h4⟩

/-- In a family of groups whose flattening has no duplicates, a position
determines its group. -/
lemma mem_groups_eq :
    ∀ (cand : List CandGroup), cand.flatten.Nodup →
    ∀ g₁ ∈ cand, ∀ g₂ ∈ cand, ∀ p : ℕ, p ∈ g₁ → p ∈ g₂ → g₁ = g₂ := by
  intro cand
  induction cand with
  | nil => simp
  | cons g rest ih =>
    intro hnd g₁ hg₁ g₂ hg₂ p hp₁ hp₂
    rw [List.flatten_cons, List.nodup_append] at hnd
    obtain ⟨hndg, hndrest, hdisj⟩ := hnd
    rcases List.mem_cons.mp hg₁ with he₁ | hm₁
    · rcases List.mem_cons.mp hg₂ with he₂ | hm₂
      · rw [he₁, he₂]
      · exfalso
        exact hdisj (he₁ ▸ hp₁) (List.mem_flatten_of_mem hm₂ hp₂)
    · rcases List.mem_cons.mp hg₂ with he₂ | hm₂
      · exfalso
        exact hdisj (he₂ ▸ hp₂) (List.mem_flatten_of_mem hm₁ hp₁)
      · exact ih hndrest g₁ hm₁ g₂ hm₂ p hp₁ hp₂

/-! ### N-gram entry facts -/

lemma mem_buildNgramIndexes {cand : List CandGroup} {maxN : ℕ} {e : NgramEntry}
    (he : e ∈ buildNgramIndexes cand maxN) :
    ∃ idx, idx < cand.length ∧
      e = (List.range maxN).map (fun k => (cand.drop idx).take (k + 1)) := by
  simp only [buildNgramIndexes, List.mem_map, List.mem_range] at he
  obtain ⟨idx, hidx, heq⟩ := he
  exact ⟨idx, hidx, heq.symm⟩

lemma entry_getD (cand : List CandGroup) (idx maxN j : ℕ) :
    ((List.range maxN).map (fun k => (cand.drop idx).take (k + 1))).getD j [] =
      if j < maxN then (cand.drop idx).take (j + 1) else [] := by
  split
  case isTrue hj =>
    rw [List.getD_eq_getElem?_getD]
    rw [List.getElem?_eq_getElem (by simpa using hj)]
    simp
  case isFalse hj =>
    rw [List.getD_eq_default]
    simpa using Nat.le_of_not_lt hj

lemma retryLoop_shape (entry : NgramEntry) (mL nP : ℕ) :
    ∀ (n : ℕ) (iset : List ℕ), (∃ j, iset = (entry.getD j []).flatten) →
    ∃ j, retryLoop entry mL nP n iset = (entry.getD j []).flatten := by
  intro n
  induction n with
  | zero =>
    intro iset h
    simpa [retryLoop] using h
  | succ n ih =>
    intro iset h
    simp only [retryLoop]
    split
    · exact h
    · exact ih _ ⟨n, rfl⟩

lemma retryLoop_fits_or_first (entry : NgramEntry) (mL nP : ℕ) :
    ∀ n : ℕ,
      mL + (retryLoop entry mL nP n ((entry.getD n []).flatten)).length ≤ nP ∨
      retryLoop entry mL nP n ((entry.getD n []).flatten) =
        (entry.getD 0 []).flatten := by
  intro n
  induction n with
  | zero => exact Or.inr (by simp [retryLoop])
  | succ n ih =>
    simp only [retryLoop]
    split
    case isTrue h => exact Or.inl h
    case isFalse h => exact ih

/-- The flat position set of the slice `cand[idx:idx+m]` sits inside
`cand.flatten`, with the surrounding decomposition. -/
lemma slice_flatten_decomp (cand : List CandGroup) (idx m : ℕ) :
    cand.flatten = (cand.take idx).flatten ++
      (((cand.drop idx).take m).flatten ++ ((cand.drop idx).drop m).flatten) := by
  conv_lhs => rw [← List.take_append_drop idx cand]
  rw [List.flatten_append]
  congr 1
  conv_lhs => rw [← List.take_append_drop m (cand.drop idx)]
  rw [List.flatten_append]

lemma slice_flatten_nodup (cand : List CandGroup) (idx m : ℕ)
    (hnd : cand.flatten.Nodup) : (((cand.drop idx).take m).flatten).Nodup := by
  rw [slice_flatten_decomp cand idx m] at hnd
  exact hnd.sublist ((List.sublist_append_left _ _).trans
    (List.sublist_append_right _ _))

lemma slice_flatten_subset (cand : List CandGroup) (idx m : ℕ) :
    ∀ p ∈ (((cand.drop idx).take m).flatten), p ∈ cand.flatten := by
  intro p hp
  rw [slice_flatten_decomp cand idx m]
  exact List.mem_append_right _ (List.mem_append_left _ hp)

lemma slice_mem_cand (cand : List CandGroup) (idx m : ℕ) :
    ∀ g ∈ (cand.drop idx).take m, g ∈ cand := by
  intro g hg
  exact List.mem_of_mem_drop (List.mem_of_mem_take hg)

/-! ### Main-loop invariant -/

/-- Invariant of the candidate loop relative to the input `tokens`, the
candidate groups `cand`, and the budget `nPred`:  the output list keeps
its length and agrees with the input off the covered set; the covered
set is exactly the set of committed positions, which are duplicate-free,
lie inside candidate groups, cover every group all-or-nothing, and
respect the budget. -/
structure MlmInv (tokens : List ℤ) (cand : List CandGroup) (nPred : ℕ)
    (st : MlmState) : Prop where
  out_len : st.output.length = tokens.length
  frame : ∀ i, i ∉ st.covered → st.output.getD i 0 = tokens.getD i 0
  covered_iff : ∀ p, p ∈ st.covered ↔ p ∈ st.masked.map Prod.fst
  masked_nodup : (st.masked.map Prod.fst).Nodup
  covered_in_groups : ∀ p ∈ st.covered, ∃ g ∈ cand, p ∈ g
  atomic : ∀ g ∈ cand, ∀ p ∈ g, p ∈ st.covered → ∀ q ∈ g, q ∈ st.covered
  budget : st.masked.length ≤ nPred

lemma MlmInv.with_ctr {tokens : List ℤ} {cand : List CandGroup} {nPred : ℕ}
    {st : MlmState} (h : MlmInv tokens cand nPred st) (c : ℕ) :
    MlmInv tokens cand nPred { st with ctr := c } := by
  obtain ⟨m, cov, out, ctr⟩ := st
  exact ⟨h.out_len, h.frame, h.covered_iff, h.masked_nodup,
    h.covered_in_groups, h.atomic, h.budget⟩

lemma mask_token_ok (cfg : BertConfig) (rng : Rng) (ctr idx : ℕ)
    (tokens out : List ℤ) (label : ℤ) (ctr' : ℕ)
    (hok : mask_token cfg rng ctr idx tokens = .ok (out, label, ctr')) :
    out.length = tokens.length ∧ label = tokens.getD idx 0 ∧
      (∀ i, i ≠ idx → out.getD i 0 = tokens.getD i 0) := by
  simp only [mask_token] at hok
  split at hok
  case isFalse => exact absurd hok (by simp)
  case isTrue hlt =>
  have hset : ∀ (v : ℤ) (i : ℕ), i ≠ idx →
      (tokens.set idx v).getD i 0 = tokens.getD i 0 := by
    intro v i hne
    rw [List.getD_eq_getElem?_getD, List.getD_eq_getElem?_getD,
      List.getElem?_set_ne (Ne.symm hne)]
  split at hok
  · simp only [Except.ok.injEq, Prod.mk.injEq] at hok
    obtain ⟨rfl, rfl, rfl⟩ := hok
    exact ⟨by simp, rfl, hset _⟩
  · split at hok
    · simp only [Except.ok.injEq, Prod.mk.injEq] at hok
      obtain ⟨rfl, rfl, rfl⟩ := hok
      exact ⟨by simp, rfl, hset _⟩
    · exact absurd hok (by simp)

lemma commitSpan_ok (cfg : BertConfig) (rng : Rng) :
    ∀ (iset : List ℕ) (st st' : MlmState),
    commitSpan cfg rng iset st = .ok st' →
    (∀ p, p ∈ st'.covered ↔ p ∈ st.covered ∨ p ∈ iset) ∧
    (∃ zs : List (ℕ × ℤ), zs.map Prod.fst = iset ∧
      st'.masked = st.masked ++ zs) ∧
    st'.output.length = st.output.length ∧
    (∀ i, i ∉ iset → st'.output.getD i 0 = st.output.getD i 0) := by
  intro iset
  induction iset with
  | nil =>
    intro st st' hok
    simp only [commitSpan, Except.ok.injEq] at hok
    subst hok
    exact ⟨fun p => by simp, ⟨[], by simp⟩, rfl, fun i _ => rfl⟩
  | cons idx rest ih =>
    intro st st' hok
    simp only [commitSpan] at hok
    split at hok
    case h_1 => exact absurd hok (by simp)
    case h_2 out label ctr hmt =>
    obtain ⟨hlen, hlab, hframe⟩ := mask_token_ok cfg rng st.ctr idx st.output
      out label ctr hmt
    obtain ⟨hcov, ⟨zs, hzs, hmask⟩, hlen', hframe'⟩ := ih _ st' hok
    refine ⟨?_, ⟨(idx, label) :: zs, ?_, ?_⟩, ?_, ?_⟩
    · intro p
      rw [hcov p]
      simp only [List.mem_insert_iff, List.mem_cons]
      tauto
    · simp [hzs]
    · rw [hmask]
      simp
    · rw [hlen']
      exact hlen
    · intro i hi
      rw [hframe' i (fun hmem => hi (List.mem_cons_of_mem _ hmem))]
      exact hframe i (fun heq => hi (heq ▸ List.mem_cons_self idx rest))

lemma commit_preserves (cfg : BertConfig) (rng : Rng) {tokens : List ℤ}
    {cand : List CandGroup} {nPred : ℕ} {st st' : MlmState}
    (hnd : cand.flatten.Nodup)
    (hinv : MlmInv tokens cand nPred st) (idx m c : ℕ)
    (hbud : st.masked.length + (((cand.drop idx).take m).flatten).length ≤ nPred)
    (hcov : ∀ i ∈ ((cand.drop idx).take m).flatten, i ∉ st.covered)
    (hok : commitSpan cfg rng (((cand.drop idx).take m).flatten)
      { st with ctr := c } = .ok st') :
    MlmInv tokens cand nPred st' := by
  obtain ⟨hcov', ⟨zs, hzs, hmask⟩, hlen, hframe⟩ :=
    commitSpan_ok cfg rng _ _ st' hok
  have hsimp_cov : ∀ p, p ∈ st'.covered ↔
      p ∈ st.covered ∨ p ∈ ((cand.drop idx).take m).flatten := by
    intro p
    simpa using hcov' p
  have hzslen : zs.length = (((cand.drop idx).take m).flatten).length := by
    rw [← hzs, List.length_map]
  have hmask_fst : st'.masked.map Prod.fst =
      st.masked.map Prod.fst ++ ((cand.drop idx).take m).flatten := by
    rw [hmask]
    simp [hzs]
  refine ⟨?_, ?_, ?_, ?_, ?_, ?_, ?_⟩
  · rw [hlen]
    exact hinv.out_len
  · intro i hi
    rw [hsimp_cov i] at hi
    push_neg at hi
    rw [hframe i hi.2]
    exact hinv.frame i hi.1
  · intro p
    rw [hsimp_cov p, hmask_fst, List.mem_append, hinv.covered_iff p]
  · rw [hmask_fst]
    rw [List.nodup_append]
    refine ⟨hinv.masked_nodup, slice_flatten_nodup cand idx m hnd, ?_⟩
    intro x hx hx'
    exact hcov x hx' ((hinv.covered_iff x).mpr hx)
  · intro p hp
    rcases (hsimp_cov p).mp hp with h | h
    · exact hinv.covered_in_groups p h
    · exact List.mem_flatten.mp (slice_flatten_subset cand idx m p h)
  · intro g hg p hp hpc q hq
    rcases (hsimp_cov p).mp hpc with h | h
    · exact (hsimp_cov q).mpr (Or.inl (hinv.atomic g hg p hp h q hq))
    · obtain ⟨g', hg', hpg'⟩ := List.mem_flatten.mp h
      have hgg : g = g' := mem_groups_eq cand hnd g hg g'
        (slice_mem_cand cand idx m g' hg') p hp hpg'
      refine (hsimp_cov q).mpr (Or.inr ?_)
      exact List.mem_flatten_of_mem hg' (hgg ▸ hq)
  · rw [hmask]
    rw [List.length_append]
    simpa [hzslen] using hbud

lemma mlmStep_inv (cfg : BertConfig) (rng : Rng) {tokens : List ℤ}
    {cand : List CandGroup} {maxN nPred : ℕ} {st st' : MlmState}
    {e : NgramEntry}
    (hnd : cand.flatten.Nodup)
    (he : e ∈ buildNgramIndexes cand maxN)
    (hinv : MlmInv tokens cand nPred st)
    (hok : mlmStep cfg rng nPred st e = .ok st') :
    MlmInv tokens cand nPred st' := by
  obtain ⟨idx, hidx, rfl⟩ := mem_buildNgramIndexes he
  have hshape : ∀ nn : ℕ, ∃ m : ℕ,
      retryLoop ((List.range maxN).map fun k => (cand.drop idx).take (k + 1))
        st.masked.length nPred nn
        ((((List.range maxN).map fun k =>
          (cand.drop idx).take (k + 1)).getD nn []).flatten) =
      ((cand.drop idx).take m).flatten := by
    intro nn
    obtain ⟨j, hj⟩ := retryLoop_shape
      ((List.range maxN).map fun k => (cand.drop idx).take (k + 1))
      st.masked.length nPred nn _ ⟨nn, rfl⟩
    rw [entry_getD cand idx maxN j] at hj
    by_cases hjm : j < maxN
    · rw [if_pos hjm] at hj
      exact ⟨j + 1, hj⟩
    · rw [if_neg hjm] at hj
      exact ⟨0, by simpa using hj⟩
  simp only [mlmStep] at hok
  split at hok
  case isTrue =>
    simp only [Except.ok.injEq] at hok
    exact hok ▸ hinv
  case isFalse =>
  split at hok
  case isTrue =>
    simp only [Except.ok.injEq] at hok
    exact hok ▸ hinv
  case isFalse =>
  obtain ⟨m, hm⟩ := hshape (rng.chooseN st.ctr
    ((List.range maxN).map fun k => (cand.drop idx).take (k + 1)).length - 1)
  rw [hm] at hok
  split at hok
  case isTrue =>
    simp only [Except.ok.injEq] at hok
    exact hok ▸ hinv.with_ctr _
  case isFalse hbud =>
  split at hok
  case isTrue =>
    simp only [Except.ok.injEq] at hok
    exact hok ▸ hinv.with_ctr _
  case isFalse hany =>
  refine commit_preserves cfg rng hnd hinv idx m (st.ctr + 1) ?_ ?_ hok
  · exact Nat.le_of_not_lt hbud
  · intro i hi hic
    exact hany (List.any_eq_true.mpr
      ⟨i, hi, List.contains_iff_exists_mem_beq.mpr ⟨i, hic, by simp⟩⟩)

lemma mlmLoop_inv (cfg : BertConfig) (rng : Rng) {tokens : List ℤ}
    {cand : List CandGroup} {maxN nPred : ℕ}
    (hnd : cand.flatten.Nodup) :
    ∀ (es : List NgramEntry) (st st' : MlmState),
    (∀ e ∈ es, e ∈ buildNgramIndexes cand maxN) →
    MlmInv tokens cand nPred st →
    mlmLoop cfg rng nPred es st = .ok st' →
    MlmInv tokens cand nPred st' := by
  intro es
  induction es with
  | nil =>
    intro st st' _ hinv hok
    simp only [mlmLoop, Except.ok.injEq] at hok
    exact hok ▸ hinv
  | cons e es ih =>
    intro st st' hmem hinv hok
    simp only [mlmLoop] at hok
    split at hok
    case h_1 => exact absurd hok (by simp)
    case h_2 st1 hstep =>
      exact ih st1 st' (fun e' he' => hmem e' (List.mem_cons_of_mem _ he'))
        (mlmStep_inv cfg rng hnd (hmem e (List.mem_cons_self _ _)) hinv hstep)
        hok

lemma planner_inv (cfg : BertConfig) (rng : Rng) (tokens : List ℤ)
    (maxN : ℕ) (dwwm : Bool) (out : List ℤ) (pos : List ℕ) (labs : List ℤ)
    (hok : create_masked_lm_predictions cfg rng tokens maxN dwwm =
      .ok (out, pos, labs)) :
    ∃ st : MlmState,
      MlmInv tokens (buildCandIndexes cfg dwwm tokens)
        (numToPredict cfg tokens.length) st ∧
      out = st.output ∧ pos = (sortLms st.masked).map Prod.fst ∧
      labs = (sortLms st.masked).map Prod.snd := by
  simp only [create_masked_lm_predictions] at hok
  split at hok
  · exact absurd hok (by simp)
  split at hok
  case h_1 => exact absurd hok (by simp)
  case h_2 st hml =>
    have hini : MlmInv tokens (buildCandIndexes cfg dwwm tokens)
        (numToPredict cfg tokens.length) ⟨[], [], tokens, 0⟩ := by
      refine ⟨rfl, fun _ _ => rfl, by simp, by simp, ?_, ?_, by simp⟩
      · intro p hp
        exact absurd hp (by simp)
      · intro g _ p _ hp
        exact absurd hp (by simp)
    have hinv := mlmLoop_inv cfg rng
      (buildCandIndexes_nodup cfg dwwm tokens) _ _ st
      (fun e he => ((rng.shuffle_perm _).mem_iff).mp he) hini hml
    simp only [Except.ok.injEq, Prod.mk.injEq] at hok
    exact ⟨st, hinv, hok.1.symm, hok.2.1.symm, hok.2.2.symm⟩

/-! ### Claim theorems about the masking planner -/

/-- **C3.** For every input and RNG state, the masked positions returned
by the planner are pairwise distinct and each lies within
`[0, real_token_count)`; a candidate n-gram any of whose flat positions
was already masked by an earlier (shuffle-prioritized) candidate is
skipped entirely, so no position is ever masked twice. -/
theorem create_masked_lm_positions_nodup_in_range (cfg : BertConfig)
    (rng : Rng) (tokens : List ℤ) (maxN : ℕ) (dwwm : Bool)
    (out : List ℤ) (pos : List ℕ) (labs : List ℤ)
    (hok : create_masked_lm_predictions cfg rng tokens maxN dwwm =
      .ok (out, pos, labs)) :
    pos.Nodup ∧ ∀ p ∈ pos, p < tokens.length := by
  obtain ⟨st, hinv, -, hpos, -⟩ :=
    planner_inv cfg rng tokens maxN dwwm out pos labs hok
  have hperm : List.Perm pos (st.masked.map Prod.fst) :=
    hpos ▸ (sortLms_perm st.masked).map Prod.fst
  refine ⟨hperm.nodup_iff.mpr hinv.masked_nodup, fun p hp => ?_⟩
  have hc : p ∈ st.covered := (hinv.covered_iff p).mpr (hperm.mem_iff.mp hp)
  obtain ⟨g, hg, hpg⟩ := hinv.covered_in_groups p hc
  exact (buildCandIndexes_mem cfg dwwm tokens p
    (List.mem_flatten_of_mem hg hpg)).1

/-- Witness for `create_masked_lm_positions_nodup_in_range`. -/
theorem create_masked_lm_positions_nodup_in_range_witness :
    (create_masked_lm_predictions cfgW rngW [1, 10, 11, 2] 3 true =
      .ok ([1, 3, 3, 2], [1, 2], [10, 11])) ∧
    (([1, 2] : List ℕ).Nodup ∧
      ∀ p ∈ ([1, 2] : List ℕ), p < ([1, 10, 11, 2] : List ℤ).length) :=
  ⟨by rfl, create_masked_lm_positions_nodup_in_range cfgW rngW
    [1, 10, 11, 2] 3 true _ _ _ (by rfl)⟩

/-- **C2.** For every input and RNG state, in whole-word mode the
planner never half-masks a word: each accepted n-gram span is a union of
whole candidate groups, so if one position of a candidate group is
masked, every position of that group (in particular the continuation
piece at `p+1` of the same word, including groups straddling the A/B
boundary) is masked as well. -/
theorem create_masked_lm_whole_word_atomic (cfg : BertConfig) (rng : Rng)
    (tokens : List ℤ) (maxN : ℕ) (out : List ℤ) (pos : List ℕ)
    (labs : List ℤ)
    (hok : create_masked_lm_predictions cfg rng tokens maxN true =
      .ok (out, pos, labs))
    (g : CandGroup) (hg : g ∈ buildCandIndexes cfg true tokens)
    (p q : ℕ) (hp : p ∈ g) (hq : q ∈ g) (hmask : p ∈ pos) : q ∈ pos := by
  obtain ⟨st, hinv, -, hpos, -⟩ :=
    planner_inv cfg rng tokens maxN true out pos labs hok
  have hperm : List.Perm pos (st.masked.map Prod.fst) :=
    hpos ▸ (sortLms_perm st.masked).map Prod.fst
  have hc : p ∈ st.covered := (hinv.covered_iff p).mpr (hperm.mem_iff.mp hmask)
  have hqc : q ∈ st.covered := hinv.atomic g hg p hp hc q hq
  exact hperm.mem_iff.mpr ((hinv.covered_iff q).mp hqc)

/-- Witness for `create_masked_lm_whole_word_atomic`: id 11 is the
continuation piece `##x` of the word starting at position 1, the whole
group `[1, 2]` is masked together. -/
theorem create_masked_lm_whole_word_atomic_witness :
    ((create_masked_lm_predictions cfgW rngW [1, 10, 11, 2] 3 true =
        .ok ([1, 3, 3, 2], [1, 2], [10, 11])) ∧
      [1, 2] ∈ buildCandIndexes cfgW true [1, 10, 11, 2] ∧
      1 ∈ ([1, 2] : List ℕ) ∧ 2 ∈ ([1, 2] : List ℕ) ∧
      1 ∈ ([1, 2] : List ℕ)) ∧
    2 ∈ ([1, 2] : List ℕ) :=
  ⟨⟨by rfl, by decide, by decide, by decide, by decide⟩,
    create_masked_lm_whole_word_atomic cfgW rngW [1, 10, 11, 2] 3 _ _ _
      (by rfl) [1, 2] (by decide) 1 2 (by decide) (by decide)
      (by decide)⟩

/-- **C4.** The number of committed masked positions never exceeds
`num_to_predict = min(max_preds_per_seq, max(1, round(len(tokens) * mask_lm_prob)))`;
and the budget retry loop only ever tries strictly shorter n-grams, so
that whenever its final span still overflows the budget (after which the
candidate is skipped entirely), that span is already the 1-gram. -/
theorem create_masked_lm_budget (cfg : BertConfig) (rng : Rng)
    (tokens : List ℤ) (maxN : ℕ) (dwwm : Bool) (out : List ℤ)
    (pos : List ℕ) (labs : List ℤ)
    (hok : create_masked_lm_predictions cfg rng tokens maxN dwwm =
      .ok (out, pos, labs)) :
    pos.length ≤ numToPredict cfg tokens.length ∧
    (∀ (entry : NgramEntry) (mL n : ℕ),
      numToPredict cfg tokens.length <
        mL + (retryLoop entry mL (numToPredict cfg tokens.length) n
          ((entry.getD n []).flatten)).length →
      retryLoop entry mL (numToPredict cfg tokens.length) n
        ((entry.getD n []).flatten) = (entry.getD 0 []).flatten) := by
  obtain ⟨st, hinv, -, hpos, -⟩ :=
    planner_inv cfg rng tokens maxN dwwm out pos labs hok
  constructor
  · have hlen : pos.length = st.masked.length := by
      rw [hpos, List.length_map, (sortLms_perm st.masked).length_eq]
    rw [hlen]
    exact hinv.budget
  · intro entry mL n hover
    rcases retryLoop_fits_or_first entry mL (numToPredict cfg tokens.length)
      n with h | h
    · omega
    · exact h

/-- Witness for `create_masked_lm_budget`. -/
theorem create_masked_lm_budget_witness :
    (create_masked_lm_predictions cfgW rngW [1, 10, 11, 2] 3 true =
      .ok ([1, 3, 3, 2], [1, 2], [10, 11])) ∧
    (([1, 2] : List ℕ).length ≤ numToPredict cfgW 4 ∧
      (∀ (entry : NgramEntry) (mL n : ℕ),
        numToPredict cfgW 4 <
          mL + (retryLoop entry mL (numToPredict cfgW 4) n
            ((entry.getD n []).flatten)).length →
        retryLoop entry mL (numToPredict cfgW 4) n
          ((entry.getD n []).flatten) = (entry.getD 0 []).flatten)) :=
  ⟨by rfl, create_masked_lm_budget cfgW rngW [1, 10, 11, 2] 3 true _ _ _
    (by rfl)⟩

/-- **C10.** For every input and RNG state, the token list returned by
the planner agrees with the input at every position not in the returned
masked-positions list, and no returned position ever holds a `cls`/`sep`
token (those are never candidates). -/
theorem create_masked_lm_frame (cfg : BertConfig) (rng : Rng)
    (tokens : List ℤ) (maxN : ℕ) (dwwm : Bool) (out : List ℤ)
    (pos : List ℕ) (labs : List ℤ)
    (hok : create_masked_lm_predictions cfg rng tokens maxN dwwm =
      .ok (out, pos, labs)) :
    out.length = tokens.length ∧
    (∀ i, i ∉ pos → out.getD i 0 = tokens.getD i 0) ∧
    (∀ p ∈ pos, tokens.getD p 0 ≠ cfg.cls_id ∧
      tokens.getD p 0 ≠ cfg.sep_id) := by
  obtain ⟨st, hinv, hout, hpos, -⟩ :=
    planner_inv cfg rng tokens maxN dwwm out pos labs hok
  have hperm : List.Perm pos (st.masked.map Prod.fst) :=
    hpos ▸ (sortLms_perm st.masked).map Prod.fst
  refine ⟨hout ▸ hinv.out_len, ?_, ?_⟩
  · intro i hi
    have hic : i ∉ st.covered := fun hc =>
      hi (hperm.mem_iff.mpr ((hinv.covered_iff i).mp hc))
    rw [hout]
    exact hinv.frame i hic
  · intro p hp
    have hc : p ∈ st.covered :=
      (hinv.covered_iff p).mpr (hperm.mem_iff.mp hp)
    obtain ⟨g, hg, hpg⟩ := hinv.covered_in_groups p hc
    exact (buildCandIndexes_mem cfg dwwm tokens p
      (List.mem_flatten_of_mem hg hpg)).2

/-- Witness for `create_masked_lm_frame`. -/
theorem create_masked_lm_frame_witness :
    (create_masked_lm_predictions cfgW rngW [1, 10, 11, 2] 3 true =
      .ok ([1, 3, 3, 2], [1, 2], [10, 11])) ∧
    (([1, 3, 3, 2] : List ℤ).length = ([1, 10, 11, 2] : List ℤ).length ∧
      (∀ i, i ∉ ([1, 2] : List ℕ) →
        ([1, 3, 3, 2] : List ℤ).getD i 0 =
          ([1, 10, 11, 2] : List ℤ).getD i 0) ∧
      (∀ p ∈ ([1, 2] : List ℕ),
        ([1, 10, 11, 2] : List ℤ).getD p 0 ≠ cfgW.cls_id ∧
        ([1, 10, 11, 2] : List ℤ).getD p 0 ≠ cfgW.sep_id)) :=
  ⟨by rfl, create_masked_lm_frame cfgW rngW [1, 10, 11, 2] 3 true _ _ _
    (by rfl)⟩

/-- **C7.** The claim states that with `mask_lm_prob == 0` the planner
returns the tokens unchanged with empty position/label lists; in the
code the early `return` at line 202 instead reads `output_tokens` before
its assignment at line 219, raising `UnboundLocalError`. -/
theorem create_masked_lm_prob_zero_raises (cfg : BertConfig) (rng : Rng)
    (tokens : List ℤ) (maxN : ℕ) (dwwm : Bool)
    (hzero : cfg.mask_lm_prob = 0) :
    create_masked_lm_predictions cfg rng tokens maxN dwwm =
      .error (.nameError "output_tokens") := by
  simp [create_masked_lm_predictions, hzero]

/-- Witness for `create_masked_lm_prob_zero_raises`. -/
theorem create_masked_lm_prob_zero_raises_witness :
    cfgW_zero.mask_lm_prob = 0 ∧
    create_masked_lm_predictions cfgW_zero rngW [1, 5, 2] 3 true =
      .error (.nameError "output_tokens") :=
  ⟨by rfl, create_masked_lm_prob_zero_raises cfgW_zero rngW [1, 5, 2] 3
    true (by rfl)⟩

/-! ### Claim theorems about the remaining pipeline stages -/

/-- **C5.** The claim describes the truncation loop (remove one token at
a time from the longer segment, front or back at random, until
`len(A)+len(B) ≤ max_num_tokens`).  The code returns segments already
within budget unchanged (second conjunct), but any input that actually
needs trimming reaches `rng.random()` with no `rng` in scope (the
parameter is `np_rng`), raising `NameError` (first conjunct). -/
theorem truncate_seq_pair_raises_nameError :
    truncate_seq_pair [1, 2] [] 1 = .error (.nameError "rng") ∧
    truncate_seq_pair [1, 2] [3] 5 = .ok ([1, 2], [3]) :=
  ⟨rfl, rfl⟩

/-- **C6.** The claim describes the SOP split
(`a_end` draw, concatenation, probability-0.5 swap, returning
`(segment_a, segment_b, is_random_next)`).  The code's `return`
statement (line 146) names `is_random_next` while the assigned variable
is `is_next_random`, so every call with ≥ 2 sentences raises
`NameError` instead of returning the triple. -/
theorem create_random_sentence_pair_raises_nameError (aEndDraw : ℕ)
    (swapLt : Bool) (sample : List (List ℤ)) (h : 1 < sample.length) :
    create_random_sentence_pair aEndDraw swapLt sample =
      .error (.nameError "is_random_next") := by
  unfold create_random_sentence_pair
  rw [if_neg (by omega)]

/-- Witness for `create_random_sentence_pair_raises_nameError`. -/
theorem create_random_sentence_pair_raises_nameError_witness :
    1 < ([[10], [20]] : List (List ℤ)).length ∧
    create_random_sentence_pair 1 true [[10], [20]] =
      .error (.nameError "is_random_next") :=
  ⟨by decide, create_random_sentence_pair_raises_nameError 1 true
    [[10], [20]] (by decide)⟩

/-- **C8.** The claim states that the record returned by
`create_training_sample` has exactly the six `TrainingSample` fields.
In the code the dict literal (lines 111–119) has a seventh key
`'truncated'` whose value names the unassigned identifier `truncated`
(and is followed by an unbalanced `}`, a `SyntaxError` in the actual
file); even on an input where every earlier stage succeeds, the
function raises `NameError` instead of returning any record. -/
theorem create_training_sample_raises_nameError :
    create_training_sample cfgW_nb rngW 1 true [[5, 6]] 4 =
      .error (.nameError "truncated") := by rfl

/-- **C9.** In binary-head mode, a sample with fewer than 2 sentences
makes `create_training_sample` fail with the invalid-sample assertion
(`assert len(sample) > 1`, the spec's `InvalidSampleError`), surfaced to
the caller; no `TrainingSample` is ever returned for such input. -/
theorem create_training_sample_invalid_sample (cfg : BertConfig)
    (rng : Rng) (aEndDraw : ℕ) (swapLt : Bool) (sample : List (List ℤ))
    (target_seq_length : ℕ) (hbh : cfg.binary_head = true)
    (hlen : sample.length < 2) :
    create_training_sample cfg rng aEndDraw swapLt sample
      target_seq_length = .error .assertionError := by
  unfold create_training_sample
  rw [if_pos ⟨hbh, by omega⟩]

/-- Witness for `create_training_sample_invalid_sample`. -/
theorem create_training_sample_invalid_sample_witness :
    (cfgW.binary_head = true ∧ ([[5]] : List (List ℤ)).length < 2) ∧
    create_training_sample cfgW rngW 1 true [[5]] 4 =
      .error .assertionError :=
  ⟨⟨by rfl, by decide⟩,
    create_training_sample_invalid_sample cfgW rngW 1 true [[5]] 4
      (by rfl) (by decide)⟩
